import Mathlib

/-!
Verification of the variability-statistics module `gammapy/stats/variability.py`
(`compute_fvar`, `compute_fpp`, `compute_chisq`).

The numpy floating-point values are modelled by the type `FP`: a value is
`nan`, `inf`, `ninf` (negative infinity) or `fin r` for a real number `r`.
The arithmetic operations follow the IEEE-754 conventions that numpy uses
(nan propagation, `x / 0` giving a signed infinity or nan, `sqrt` of a
negative number giving nan), with real arithmetic in place of rounded
binary64 arithmetic and signed zero ignored.  One-dimensional numpy arrays
are `List FP`; two-dimensional arrays are `List (List FP)` (a list of rows).

The reductions `nansumList`, `nanmeanList`, `countNotNan`, `sumList`,
`meanList` model `np.nansum`, `np.nanmean`, `np.count_nonzero(~np.isnan x)`,
`np.sum` and `np.mean` on one axis.  The functions `compute_fvar`,
`compute_fpp` (one-dimensional, the default `axis=0` on a 1-D input) and
`compute_fvar2` / `compute_fpp2` (two-dimensional with an explicit axis)
are line-by-line translations of the source.  Axis-0 reductions of a 2-D
array are modelled as row reductions of the transpose.  The broadcast of
`flux - flux_mean` in `compute_fvar` can fail in numpy, so the 2-D
`compute_fvar2` returns `Except String`, while `compute_fpp2` never
broadcasts a vector against a matrix and is total.

`scipy.stats.chisquare` is an external collaborator of the module; it is
modelled by its documented contract: the statistic is the sum of
`(obs - exp)^2 / exp` and the p-value is the chi-square survival function
of the statistic at `len - 1` degrees of freedom; the survival function
itself is an opaque parameter `sf`.
-/

namespace Variability

/-- IEEE-style extended value: nan, positive infinity, negative infinity,
or a finite real number. -/
inductive FP where
  | nan : FP
  | inf : FP
  | ninf : FP
  | fin : ℝ → FP

/-- Test for the nan marker (`np.isnan`). -/
def FP.isNaN : FP → Bool
  | .nan => true
  | _ => false

noncomputable section

/-- IEEE addition. -/
def addFP : FP → FP → FP
  | .nan, _ => .nan
  | _, .nan => .nan
  | .inf, .ninf => .nan
  | .ninf, .inf => .nan
  | .inf, _ => .inf
  | _, .inf => .inf
  | .ninf, _ => .ninf
  | _, .ninf => .ninf
  | .fin a, .fin b => .fin (a + b)

/-- IEEE subtraction. -/
def subFP : FP → FP → FP
  | .nan, _ => .nan
  | _, .nan => .nan
  | .inf, .inf => .nan
  | .ninf, .ninf => .nan
  | .inf, _ => .inf
  | .ninf, _ => .ninf
  | _, .inf => .ninf
  | _, .ninf => .inf
  | .fin a, .fin b => .fin (a - b)

/-- IEEE multiplication (`inf * 0 = nan`). -/
def mulFP : FP → FP → FP
  | .nan, _ => .nan
  | _, .nan => .nan
  | .inf, .inf => .inf
  | .inf, .ninf => .ninf
  | .ninf, .inf => .ninf
  | .ninf, .ninf => .inf
  | .inf, .fin b => if 0 < b then .inf else if b < 0 then .ninf else .nan
  | .fin a, .inf => if 0 < a then .inf else if a < 0 then .ninf else .nan
  | .ninf, .fin b => if 0 < b then .ninf else if b < 0 then .inf else .nan
  | .fin a, .ninf => if 0 < a then .ninf else if a < 0 then .inf else .nan
  | .fin a, .fin b => .fin (a * b)

/-- IEEE division (`x / 0` is a signed infinity for `x` nonzero, `0 / 0 = nan`,
`inf / inf = nan`, finite over infinite is zero; signed zero is not modelled,
so the zero divisor counts as positive). -/
def divFP : FP → FP → FP
  | .nan, _ => .nan
  | _, .nan => .nan
  | .inf, .inf => .nan
  | .inf, .ninf => .nan
  | .ninf, .inf => .nan
  | .ninf, .ninf => .nan
  | .inf, .fin b => if 0 ≤ b then .inf else .ninf
  | .ninf, .fin b => if 0 ≤ b then .ninf else .inf
  | .fin _, .inf => .fin 0
  | .fin _, .ninf => .fin 0
  | .fin a, .fin b =>
      if b = 0 then (if 0 < a then .inf else if a < 0 then .ninf else .nan)
      else .fin (a / b)

/-- IEEE square root (`np.sqrt`): nan on negative finite input and on `ninf`. -/
def sqrtFP : FP → FP
  | .nan => .nan
  | .inf => .inf
  | .ninf => .nan
  | .fin a => if a < 0 then .nan else .fin (Real.sqrt a)

/-- Elementwise absolute value (`np.abs`). -/
def absFP : FP → FP
  | .nan => .nan
  | .inf => .inf
  | .ninf => .inf
  | .fin a => .fin |a|

/-- Squaring (`x ** 2`). -/
def sqFP : FP → FP
  | .nan => .nan
  | .inf => .inf
  | .ninf => .inf
  | .fin a => .fin (a ^ 2)

/-- Embedding of a numpy integer (e.g. the `n_points` count) into a float. -/
def intFP (n : ℤ) : FP := .fin (n : ℝ)

/-- Plain sum (`np.sum`): nan entries propagate. -/
def sumList : List FP → FP
  | [] => .fin 0
  | x :: xs => addFP x (sumList xs)

/-- NaN-aware sum (`np.nansum`): nan entries are skipped (treated as zero). -/
def nansumList : List FP → FP
  | [] => .fin 0
  | x :: xs => if x.isNaN then nansumList xs else addFP x (nansumList xs)

/-- Count of non-nan entries (`np.count_nonzero(~np.isnan(flux))`), as a
numpy integer. -/
def countNotNan (l : List FP) : ℤ := ((l.filter fun x => !x.isNaN).length : ℤ)

/-- NaN-aware mean (`np.nanmean`): NaN-aware sum over the count of non-nan
entries (all-nan input gives `0 / 0 = nan`, as numpy returns nan). -/
def nanmeanList (l : List FP) : FP := divFP (nansumList l) (intFP (countNotNan l))

/-- Plain mean (`np.mean`): plain sum over the length. -/
def meanList (l : List FP) : FP := divFP (sumList l) (intFP (l.length : ℤ))

/-- Source line `s_square = np.nansum((flux - flux_mean) ** 2, axis=axis) / (n_points - 1)`
on a 1-D input. -/
def sSquareFvar (flux : List FP) : FP :=
  divFP (nansumList (flux.map fun x => sqFP (subFP x (nanmeanList flux))))
    (intFP (countNotNan flux - 1))

/-- Source line `sig_square = np.nansum(flux_err**2, axis=axis) / n_points`
on a 1-D input (shared by `compute_fvar` and `compute_fpp`). -/
def sigSquare (flux flux_err : List FP) : FP :=
  divFP (nansumList (flux_err.map sqFP)) (intFP (countNotNan flux))

/-- Source line `fvar = np.sqrt(np.abs(s_square - sig_square)) / flux_mean`. -/
def fvarTerm (flux flux_err : List FP) : FP :=
  divFP (sqrtFP (absFP (subFP (sSquareFvar flux) (sigSquare flux flux_err))))
    (nanmeanList flux)

/-- Source line `sigxserr_a = np.sqrt(2 / n_points) * sig_square / flux_mean**2`. -/
def sigxserrA (flux flux_err : List FP) : FP :=
  divFP (mulFP (sqrtFP (divFP (FP.fin 2) (intFP (countNotNan flux))))
    (sigSquare flux flux_err)) (sqFP (nanmeanList flux))

/-- Source line `sigxserr_b = np.sqrt(sig_square / n_points) * (2 * fvar / flux_mean)`,
parametrized by the already-computed `fvar` (or `fpp`) value `v`. -/
def sigxserrB (flux flux_err : List FP) (v : FP) : FP :=
  mulFP (sqrtFP (divFP (sigSquare flux flux_err) (intFP (countNotNan flux))))
    (divFP (mulFP (FP.fin 2) v) (nanmeanList flux))

/-- Source lines `sigxserr = np.sqrt(sigxserr_a**2 + sigxserr_b**2)` and
`fvar_err = sigxserr / (2 * fvar)`, parametrized by the already-computed
`fvar` (or `fpp`) value `v`. -/
def errTerm (flux flux_err : List FP) (v : FP) : FP :=
  divFP (sqrtFP (addFP (sqFP (sigxserrA flux flux_err)) (sqFP (sigxserrB flux flux_err v))))
    (mulFP (FP.fin 2) v)

/-- Translation of `compute_fvar` on a 1-D input (the default `axis=0`):
the fractional excess variance and its propagated uncertainty. -/
def compute_fvar (flux flux_err : List FP) : FP × FP :=
  (fvarTerm flux flux_err, errTerm flux flux_err (fvarTerm flux flux_err))

/-- First differences `flux[1:] - flux[:-1]` along a 1-D axis. -/
def diffsRow : List FP → List FP
  | x :: y :: rest => subFP y x :: diffsRow (y :: rest)
  | _ => []

/-- Source line
`s_square = np.nansum((flux[..., 1:] - flux[..., :-1]) ** 2, axis=-1) / (n_points.T - 1)`
of `compute_fpp` on a 1-D input (where the reorientation `swapaxes(0, axis).T`
and the transposes are the identity).  The divisor is the count of non-nan
entries of the original flux, minus one. -/
def sSquareFpp (flux : List FP) : FP :=
  divFP (nansumList ((diffsRow flux).map sqFP)) (intFP (countNotNan flux - 1))

/-- Source line `fpp = np.sqrt(np.abs(s_square.T - sig_square)) / flux_mean`
on a 1-D input. -/
def fppTerm (flux flux_err : List FP) : FP :=
  divFP (sqrtFP (absFP (subFP (sSquareFpp flux) (sigSquare flux flux_err))))
    (nanmeanList flux)

/-- Translation of `compute_fpp` on a 1-D input (the default `axis=0`):
the point-to-point excess variance and its propagated uncertainty (the
uncertainty lines are identical to `compute_fvar` with `fvar` replaced
by `fpp`). -/
def compute_fpp (flux flux_err : List FP) : FP × FP :=
  (fppTerm flux flux_err, errTerm flux flux_err (fppTerm flux flux_err))

/-- Modelled from the spec: the statistic of the delegated
`scipy.stats.chisquare(yobs, yexp)` one-way chi-square test, the sum of
`(obs - exp)^2 / exp` over the observations with the expected value
broadcast to every observation. -/
def chisquareStat (obs : List FP) (e : FP) : FP :=
  sumList (obs.map fun o => divFP (sqFP (subFP o e)) e)

/-- Translation of `compute_chisq`: the expected value is the plain
(non-NaN-aware) mean, and the result is the chi-square statistic together
with its p-value.  The p-value is the survival function of the chi-square
distribution with `len - 1` degrees of freedom evaluated at the statistic;
the survival function is the opaque external parameter `sf` (degrees of
freedom first, then the point). -/
def compute_chisq (sf : ℕ → FP → FP) (flux : List FP) : FP × FP :=
  (chisquareStat flux (meanList flux),
    sf (flux.length - 1) (chisquareStat flux (meanList flux)))

/-- Transpose of a 2-D array given as a list of rows. -/
def transposeM {α : Type} : List (List α) → List (List α)
  | [] => []
  | [row] => row.map fun a => [a]
  | row1 :: row2 :: rest => List.zipWith List.cons row1 (transposeM (row2 :: rest))

/-- NaN-aware mean along an axis of a 2-D array: axis 0 reduces the rows of
the transpose (per-column), axis 1 reduces each row. -/
def nanmean2 (axis : ℕ) (M : List (List FP)) : List FP :=
  if axis = 0 then (transposeM M).map nanmeanList else M.map nanmeanList

/-- Count of non-nan entries along an axis of a 2-D array. -/
def counts2 (axis : ℕ) (M : List (List FP)) : List ℤ :=
  if axis = 0 then (transposeM M).map countNotNan else M.map countNotNan

/-- NaN-aware sum along an axis of a 2-D array. -/
def nansum2 (axis : ℕ) (M : List (List FP)) : List FP :=
  if axis = 0 then (transposeM M).map nansumList else M.map nansumList

/-- Source line `flux = flux.swapaxes(0, axis).T` on a 2-D array: for
`axis = 0` this is the transpose, for `axis = 1` it is the identity. -/
def swapT (axis : ℕ) (M : List (List FP)) : List (List FP) :=
  if axis = 0 then transposeM M else M

/-- Number of columns of a 2-D array (the length of its first row). -/
def numCols (M : List (List FP)) : ℕ := (M.headD []).length

/-- Numpy broadcast of `matrix - vector` for a matrix of shape `(r, c)` and
a vector of shape `(k,)`: valid when `k = c` (the vector is subtracted from
every row), when `k = 1` (the single entry is subtracted everywhere) or when
`c = 1` (each single-entry row is broadcast across the vector); otherwise
numpy raises a broadcast `ValueError`, modelled as `Except.error`. -/
def bsubMatVec (M : List (List FP)) (v : List FP) : Except String (List (List FP)) :=
  if v.length = numCols M then .ok (M.map fun row => List.zipWith subFP row v)
  else if v.length = 1 then .ok (M.map fun row => row.map fun x => subFP x (v.headD FP.nan))
  else if numCols M = 1 then .ok (M.map fun row => v.map fun y => subFP (row.headD FP.nan) y)
  else .error "operands could not be broadcast together"

/-- Translation of `compute_fvar` on a 2-D input with an explicit axis.
Only the `flux - flux_mean` broadcast can raise in numpy; every later
operation combines same-length reduced vectors elementwise. -/
def compute_fvar2 (axis : ℕ) (flux flux_err : List (List FP)) :
    Except String (List FP × List FP) := do
  let flux_mean := nanmean2 axis flux
  let n_points := counts2 axis flux
  let dev ← bsubMatVec flux flux_mean
  let s_square := List.zipWith (fun x n => divFP x (intFP (n - 1)))
    (nansum2 axis (dev.map (List.map sqFP))) n_points
  let sig_square := List.zipWith (fun x n => divFP x (intFP n))
    (nansum2 axis (flux_err.map (List.map sqFP))) n_points
  let fvar := List.zipWith divFP
    ((List.zipWith subFP s_square sig_square).map fun d => sqrtFP (absFP d)) flux_mean
  let sigxserr_a := List.zipWith divFP
    (List.zipWith mulFP (n_points.map fun n => sqrtFP (divFP (FP.fin 2) (intFP n))) sig_square)
    (flux_mean.map sqFP)
  let sigxserr_b := List.zipWith mulFP
    (List.zipWith (fun g n => sqrtFP (divFP g (intFP n))) sig_square n_points)
    (List.zipWith divFP (fvar.map fun f => mulFP (FP.fin 2) f) flux_mean)
  let sigxserr := (List.zipWith (fun x y => addFP (sqFP x) (sqFP y)) sigxserr_a sigxserr_b).map sqrtFP
  let fvar_err := List.zipWith divFP sigxserr (fvar.map fun f => mulFP (FP.fin 2) f)
  pure (fvar, fvar_err)

/-- Translation of `compute_fpp` on a 2-D input with an explicit axis:
`flux_mean` and `n_points` are computed on the original orientation, the
flux is reoriented by `swapaxes(0, axis).T`, first differences are taken
along the trailing axis of the reoriented array, and `sig_square` is
computed on the original orientation.  No vector is broadcast against a
matrix, so the function is total. -/
def compute_fpp2 (axis : ℕ) (flux flux_err : List (List FP)) : List FP × List FP :=
  let flux_mean := nanmean2 axis flux
  let n_points := counts2 axis flux
  let ft := swapT axis flux
  let s_square := List.zipWith (fun x n => divFP x (intFP (n - 1)))
    (ft.map fun r => nansumList ((diffsRow r).map sqFP)) n_points
  let sig_square := List.zipWith (fun x n => divFP x (intFP n))
    (nansum2 axis (flux_err.map (List.map sqFP))) n_points
  let fpp := List.zipWith divFP
    ((List.zipWith subFP s_square sig_square).map fun d => sqrtFP (absFP d)) flux_mean
  let sigxserr_a := List.zipWith divFP
    (List.zipWith mulFP (n_points.map fun n => sqrtFP (divFP (FP.fin 2) (intFP n))) sig_square)
    (flux_mean.map sqFP)
  let sigxserr_b := List.zipWith mulFP
    (List.zipWith (fun g n => sqrtFP (divFP g (intFP n))) sig_square n_points)
    (List.zipWith divFP (fpp.map fun f => mulFP (FP.fin 2) f) flux_mean)
  let sigxserr := (List.zipWith (fun x y => addFP (sqFP x) (sqFP y)) sigxserr_a sigxserr_b).map sqrtFP
  let fpp_err := List.zipWith divFP sigxserr (fpp.map fun f => mulFP (FP.fin 2) f)
  (fpp, fpp_err)

/-- Real values of the non-nan entries of a series (the entries a NaN-aware
reduction actually aggregates). -/
def realsOf (l : List FP) : List ℝ :=
  l.filterMap fun x => match x with
    | FP.fin r => some r
    | _ => none

/-- Spec-side `n_points`: the number of non-nan observations. -/
def nPtsR (flux : List FP) : ℕ := (realsOf flux).length

/-- Spec-side `flux_mean` as a real number: the NaN-aware arithmetic mean. -/
def fluxMeanR (flux : List FP) : ℝ := (realsOf flux).sum / nPtsR flux

/-- Spec-side sample variance `S^2 = sum((flux - flux_mean)^2) / (n_points - 1)`
as a real number, nan entries contributing zero to the sum. -/
def sSquareR (flux : List FP) : ℝ :=
  ((realsOf flux).map fun x => (x - fluxMeanR flux) ^ 2).sum / ((nPtsR flux : ℝ) - 1)

/-- Spec-side mean-square measurement error `sum(flux_err^2) / n_points` as a
real number, with the NaN-aware reading of the sum (nan entries of `flux_err`
contribute zero). -/
def sigSquareR (flux flux_err : List FP) : ℝ :=
  ((realsOf flux_err).map fun e => e ^ 2).sum / nPtsR flux

/-- Spec-side `fvar = sqrt(abs(S^2 - sigma-bar^2)) / flux_mean` as a real number. -/
def fvarR (flux flux_err : List FP) : ℝ :=
  Real.sqrt |sSquareR flux - sigSquareR flux flux_err| / fluxMeanR flux

/-- Spec-side `a = sqrt(2 / n_points) * sigma-bar^2 / flux_mean^2`. -/
def aR (flux flux_err : List FP) : ℝ :=
  Real.sqrt (2 / nPtsR flux) * sigSquareR flux flux_err / fluxMeanR flux ^ 2

/-- Spec-side `b = sqrt(sigma-bar^2 / n_points) * (2 * fvar / flux_mean)`. -/
def bR (flux flux_err : List FP) : ℝ :=
  Real.sqrt (sigSquareR flux flux_err / nPtsR flux) *
    (2 * fvarR flux flux_err / fluxMeanR flux)

/-- Spec-side `fvar_err = sqrt(a^2 + b^2) / (2 * fvar)`. -/
def fvarErrR (flux flux_err : List FP) : ℝ :=
  Real.sqrt (aR flux flux_err ^ 2 + bR flux flux_err ^ 2) / (2 * fvarR flux flux_err)

/-- Modelled from the claim text of C1 and C2: the mean-square measurement
error with a plain, non-NaN-aware sum over `flux_err^2` (to be compared with
the `sigSquare` that the source computes via `np.nansum`). -/
def sigSquarePlain (flux flux_err : List FP) : FP :=
  divFP (sumList (flux_err.map sqFP)) (intFP (countNotNan flux))

/-- Modelled from the claim text of C1: `fvar` with the plain-sum reading of
the mean-square measurement error. -/
def fvarClaim (flux flux_err : List FP) : FP :=
  divFP (sqrtFP (absFP (subFP (sSquareFvar flux) (sigSquarePlain flux flux_err))))
    (nanmeanList flux)

/-- Entries that are either the nan marker or finite (no infinities); the
shape of any measured series. -/
def FinOrNan (x : FP) : Prop := x = FP.nan ∨ ∃ r : ℝ, x = FP.fin r

/-- Output shape of an operation that never returns a negative finite value:
nan, positive infinity, or a nonnegative finite value. -/
def NonnegOut (x : FP) : Prop :=
  x = FP.nan ∨ x = FP.inf ∨ ∃ r : ℝ, 0 ≤ r ∧ x = FP.fin r

/-- Degenerate floating-point outcome: nan or an infinity, never raised as
an exception. -/
def isNanOrInf (x : FP) : Prop := x = FP.nan ∨ x = FP.inf ∨ x = FP.ninf

end

/-! Basic facts about the floating-point operations. -/

theorem addFP_nan_left (x : FP) : addFP FP.nan x = FP.nan := by
  cases x <;> rfl

theorem addFP_nan_right (x : FP) : addFP x FP.nan = FP.nan := by
  cases x <;> rfl

theorem addFP_fin_fin (a b : ℝ) : addFP (FP.fin a) (FP.fin b) = FP.fin (a + b) := rfl

theorem addFP_zero_right (x : FP) : addFP x (FP.fin 0) = x := by
  cases x <;> simp [addFP]

theorem subFP_nan_left (x : FP) : subFP FP.nan x = FP.nan := by
  cases x <;> rfl

theorem subFP_nan_right (x : FP) : subFP x FP.nan = FP.nan := by
  cases x <;> rfl

theorem subFP_fin_fin (a b : ℝ) : subFP (FP.fin a) (FP.fin b) = FP.fin (a - b) := rfl

theorem mulFP_fin_fin (a b : ℝ) : mulFP (FP.fin a) (FP.fin b) = FP.fin (a * b) := rfl

theorem divFP_nan_left (x : FP) : divFP FP.nan x = FP.nan := by
  cases x <;> rfl

theorem divFP_nan_right (x : FP) : divFP x FP.nan = FP.nan := by
  cases x <;> rfl

theorem divFP_fin_fin (a b : ℝ) (hb : b ≠ 0) :
    divFP (FP.fin a) (FP.fin b) = FP.fin (a / b) := by
  simp [divFP, hb]

theorem divFP_zero_zero : divFP (FP.fin 0) (FP.fin 0) = FP.nan := by
  simp [divFP]

theorem divFP_one (x : FP) : divFP x (FP.fin 1) = x := by
  cases x <;> simp [divFP]

theorem sqrtFP_fin (a : ℝ) (h : 0 ≤ a) : sqrtFP (FP.fin a) = FP.fin (Real.sqrt a) := by
  simp [sqrtFP, not_lt.mpr h]

theorem absFP_fin (a : ℝ) : absFP (FP.fin a) = FP.fin |a| := rfl

theorem sqFP_fin (a : ℝ) : sqFP (FP.fin a) = FP.fin (a ^ 2) := rfl

theorem isNaN_iff (x : FP) : x.isNaN = true ↔ x = FP.nan := by
  cases x <;> simp [FP.isNaN]

theorem nansumList_cons_nan (l : List FP) : nansumList (FP.nan :: l) = nansumList l := rfl

theorem nansumList_cons_not_nan (x : FP) (l : List FP) (h : x ≠ FP.nan) :
    nansumList (x :: l) = addFP x (nansumList l) := by
  have hb : x.isNaN = false := by
    cases x <;> simp_all [FP.isNaN]
  simp [nansumList, hb]

/-- An operation whose output is never a negative finite value: `absFP`. -/
theorem nonnegOut_absFP (x : FP) : NonnegOut (absFP x) := by
  cases x with
  | nan => exact Or.inl rfl
  | inf => exact Or.inr (Or.inl rfl)
  | ninf => exact Or.inr (Or.inl rfl)
  | fin a => exact Or.inr (Or.inr ⟨|a|, abs_nonneg a, rfl⟩)

/-- An operation whose output is never a negative finite value: `sqFP`. -/
theorem nonnegOut_sqFP (x : FP) : NonnegOut (sqFP x) := by
  cases x with
  | nan => exact Or.inl rfl
  | inf => exact Or.inr (Or.inl rfl)
  | ninf => exact Or.inr (Or.inl rfl)
  | fin a => exact Or.inr (Or.inr ⟨a ^ 2, sq_nonneg a, rfl⟩)

/-- The square root of a nan-or-inf-or-nonnegative value is again of that shape. -/
theorem nonnegOut_sqrtFP {x : FP} (h : NonnegOut x) : NonnegOut (sqrtFP x) := by
  rcases h with h | h | ⟨r, hr, h⟩ <;> subst h
  · exact Or.inl rfl
  · exact Or.inr (Or.inl rfl)
  · rw [sqrtFP_fin r hr]
    exact Or.inr (Or.inr ⟨Real.sqrt r, Real.sqrt_nonneg r, rfl⟩)

/-- The sum of two nan-or-inf-or-nonnegative values is again of that shape. -/
theorem nonnegOut_addFP {x y : FP} (hx : NonnegOut x) (hy : NonnegOut y) :
    NonnegOut (addFP x y) := by
  rcases hx with hx | hx | ⟨r, hr, hx⟩ <;> subst hx
  · exact Or.inl (by cases y <;> rfl)
  · rcases hy with hy | hy | ⟨s, hs, hy⟩ <;> subst hy
    · exact Or.inl rfl
    · exact Or.inr (Or.inl rfl)
    · exact Or.inr (Or.inl rfl)
  · rcases hy with hy | hy | ⟨s, hs, hy⟩ <;> subst hy
    · exact Or.inl (addFP_nan_right _)
    · exact Or.inr (Or.inl rfl)
    · exact Or.inr (Or.inr ⟨r + s, by positivity, rfl⟩)

/-- Dividing a nan-or-inf-or-nonnegative value by the float zero gives nan or
positive infinity, the floating-point signal of the degeneracy. -/
theorem divFP_nonnegOut_zero {x : FP} (h : NonnegOut x) :
    divFP x (FP.fin 0) = FP.nan ∨ divFP x (FP.fin 0) = FP.inf := by
  rcases h with h | h | ⟨r, hr, h⟩ <;> subst h
  · exact Or.inl rfl
  · right; simp [divFP]
  · rcases lt_or_eq_of_le hr with hr0 | hr0
    · right; simp [divFP, hr0]
    · left; simp [divFP, ← hr0]

/-! Bridging lemmas between the floating-point reductions and real-number
sums over the non-nan entries. -/

theorem realsOf_nil : realsOf [] = [] := rfl

theorem realsOf_cons_nan (l : List FP) : realsOf (FP.nan :: l) = realsOf l := rfl

theorem realsOf_cons_fin (r : ℝ) (l : List FP) :
    realsOf (FP.fin r :: l) = r :: realsOf l := rfl

theorem countNotNan_cons_nan (l : List FP) :
    countNotNan (FP.nan :: l) = countNotNan l := rfl

theorem countNotNan_cons_fin (r : ℝ) (l : List FP) :
    countNotNan (FP.fin r :: l) = countNotNan l + 1 := by
  simp only [countNotNan, List.filter, FP.isNaN, Bool.not_false, List.length_cons]
  push_cast
  ring

/-- On a series of nan-or-finite entries, `np.nansum` computes exactly the
real sum of the non-nan entries. -/
theorem nansumList_eq_sum_realsOf (l : List FP) (h : ∀ x ∈ l, FinOrNan x) :
    nansumList l = FP.fin (realsOf l).sum := by
  induction l with
  | nil => rfl
  | cons x xs ih =>
    have hx := h x (List.mem_cons_self x xs)
    have ihx := ih fun y hy => h y (List.mem_cons_of_mem x hy)
    rcases hx with hx | ⟨r, hx⟩ <;> subst hx
    · rw [nansumList_cons_nan, realsOf_cons_nan, ihx]
    · rw [nansumList_cons_not_nan _ _ (by intro hc; cases hc), realsOf_cons_fin, ihx,
        addFP_fin_fin, List.sum_cons]

/-- On a series of nan-or-finite entries, `n_points` counts exactly the
non-nan entries. -/
theorem countNotNan_eq_nPtsR (l : List FP) (h : ∀ x ∈ l, FinOrNan x) :
    countNotNan l = (nPtsR l : ℤ) := by
  induction l with
  | nil => rfl
  | cons x xs ih =>
    have hx := h x (List.mem_cons_self x xs)
    have ihx := ih fun y hy => h y (List.mem_cons_of_mem x hy)
    rcases hx with hx | ⟨r, hx⟩ <;> subst hx
    · rw [countNotNan_cons_nan, ihx]
      simp [nPtsR, realsOf_cons_nan]
    · rw [countNotNan_cons_fin, ihx]
      simp only [nPtsR, realsOf_cons_fin, List.length_cons]
      push_cast
      ring

/-- Mapping an elementwise operation that fixes nan and acts as `g` on finite
values transforms the non-nan real entries by `g` and keeps every entry
nan-or-finite. -/
theorem realsOf_map (l : List FP) (f : FP → FP) (g : ℝ → ℝ)
    (h1 : f FP.nan = FP.nan) (h2 : ∀ r : ℝ, f (FP.fin r) = FP.fin (g r))
    (hl : ∀ x ∈ l, FinOrNan x) :
    realsOf (l.map f) = (realsOf l).map g ∧ ∀ y ∈ l.map f, FinOrNan y := by
  induction l with
  | nil => exact ⟨rfl, by simp⟩
  | cons x xs ih =>
    have hx := hl x (List.mem_cons_self x xs)
    obtain ⟨ih1, ih2⟩ := ih fun y hy => hl y (List.mem_cons_of_mem x hy)
    constructor
    · rcases hx with hx | ⟨r, hx⟩ <;> subst hx
      · simpa [h1, realsOf_cons_nan] using ih1
      · simp only [List.map_cons, h2, realsOf_cons_fin, ih1]
    · intro y hy
      rcases List.mem_cons.mp hy with hy | hy
      · subst hy
        rcases hx with hx | ⟨r, hx⟩ <;> subst hx
        · exact Or.inl (by rw [h1])
        · exact Or.inr ⟨g r, by rw [h2]⟩
      · exact ih2 y hy

/-- The NaN-aware mean of a series of nan-or-finite entries with at least one
non-nan entry is the finite real mean. -/
theorem nanmeanList_eq (l : List FP) (h : ∀ x ∈ l, FinOrNan x) (hn : 1 ≤ nPtsR l) :
    nanmeanList l = FP.fin (fluxMeanR l) := by
  have hne : ((nPtsR l : ℤ) : ℝ) ≠ 0 := by
    have : 0 < nPtsR l := hn
    push_cast
    positivity
  rw [nanmeanList, nansumList_eq_sum_realsOf l h, countNotNan_eq_nPtsR l h, intFP,
    divFP_fin_fin _ _ hne, fluxMeanR]
  norm_num

/-- The NaN-aware sum equals the plain sum of the non-nan entries: nan
entries are excluded, not propagated. -/
theorem nansumList_eq_sumList_filter (l : List FP) :
    nansumList l = sumList (l.filter fun x => !x.isNaN) := by
  induction l with
  | nil => rfl
  | cons x xs ih =>
    by_cases hx : x.isNaN
    · simp [nansumList, hx, List.filter, ih]
    · simp only [nansumList, hx, Bool.false_eq_true, if_false, List.filter]
      rw [Bool.not_eq_true] at hx
      simp [hx, sumList, ih]

/-- A series in which every entry is nan sums (NaN-aware) to zero. -/
theorem nansumList_all_nan (l : List FP) (h : ∀ x ∈ l, x = FP.nan) :
    nansumList l = FP.fin 0 := by
  induction l with
  | nil => rfl
  | cons x xs ih =>
    rw [h x (List.mem_cons_self x xs), nansumList_cons_nan]
    exact ih fun y hy => h y (List.mem_cons_of_mem x hy)

/-- A series in which every entry is nan or the float zero sums (NaN-aware)
to zero. -/
theorem nansumList_nan_or_zero (l : List FP) (h : ∀ x ∈ l, x = FP.nan ∨ x = FP.fin 0) :
    nansumList l = FP.fin 0 := by
  induction l with
  | nil => rfl
  | cons x xs ih =>
    have ihx := ih fun y hy => h y (List.mem_cons_of_mem x hy)
    rcases h x (List.mem_cons_self x xs) with hx | hx <;> subst hx
    · rw [nansumList_cons_nan]; exact ihx
    · rw [nansumList_cons_not_nan _ _ (by intro hc; cases hc), ihx, addFP_fin_fin]
      norm_num

/-- A plain (non-NaN-aware) sum over a series containing a nan entry is nan. -/
theorem sumList_of_mem_nan (l : List FP) (h : FP.nan ∈ l) : sumList l = FP.nan := by
  induction l with
  | nil => cases h
  | cons x xs ih =>
    rcases List.mem_cons.mp h with hx | hx
    · rw [← hx, sumList, addFP_nan_left]
    · rw [sumList, ih hx, addFP_nan_right]

/-- A count of zero non-nan entries means every entry is nan. -/
theorem all_nan_of_countNotNan_zero (l : List FP) (h : countNotNan l = 0) :
    ∀ x ∈ l, x = FP.nan := by
  intro x hx
  have hlen : (l.filter fun y => !y.isNaN).length = 0 := by
    simpa [countNotNan] using h
  have hnil : (l.filter fun y => !y.isNaN) = [] := List.eq_nil_of_length_eq_zero hlen
  have := List.filter_eq_nil_iff.mp hnil x hx
  cases x <;> simp_all [FP.isNaN]

/-! Counting the difference terms that `compute_fpp` actually sums. -/

theorem diffsRow_nil : diffsRow [] = [] := rfl

theorem diffsRow_single (x : FP) : diffsRow [x] = [] := rfl

theorem diffsRow_cons_cons (x y : FP) (rest : List FP) :
    diffsRow (x :: y :: rest) = subFP y x :: diffsRow (y :: rest) := rfl

/-- Number of difference terms that the NaN-aware sum of `compute_fpp`
actually aggregates: the non-nan first differences. -/
def numValidDiffs (l : List FP) : ℕ := ((diffsRow l).filter fun d => !d.isNaN).length

/-- A flux series of finite observations with a single interior nan:
`x` leading observations, then the nan, then `y` trailing observations. -/
def spliceNaN (x y : ℝ) (xs ys : List ℝ) : List FP :=
  (x :: xs).map FP.fin ++ FP.nan :: (y :: ys).map FP.fin

/-- On an all-finite series, every first difference is finite, so the
number of summed differences is the length minus one. -/
theorem numValidDiffs_all_fin (y : ℝ) (ys : List ℝ) :
    numValidDiffs ((y :: ys).map FP.fin) = ys.length := by
  induction ys generalizing y with
  | nil => rfl
  | cons z zs ih =>
    have ihz := ih z
    simp only [numValidDiffs, List.map_cons, diffsRow_cons_cons, subFP_fin_fin,
      List.filter_cons, FP.isNaN, Bool.not_false, if_true, List.length_cons] at ihz ⊢
    omega

/-- An interior nan knocks out the two differences that touch it: the series
with one interior nan has `xs.length + ys.length` summed differences. -/
theorem numValidDiffs_spliceNaN (x y : ℝ) (xs ys : List ℝ) :
    numValidDiffs (spliceNaN x y xs ys) = xs.length + ys.length := by
  induction xs generalizing x with
  | nil =>
    have h0 := numValidDiffs_all_fin y ys
    simp only [spliceNaN, numValidDiffs, List.map_cons, List.map_nil, List.nil_append,
      List.cons_append, List.length_nil, diffsRow_cons_cons, subFP_nan_left,
      subFP_nan_right, List.filter_cons, FP.isNaN, Bool.not_true, Bool.not_false,
      Bool.false_eq_true, if_false, if_true] at h0 ⊢
    omega
  | cons x2 xs2 ih =>
    have ihx := ih x2
    simp only [spliceNaN, numValidDiffs, List.map_cons, List.cons_append,
      diffsRow_cons_cons, subFP_fin_fin, List.filter_cons, FP.isNaN, Bool.not_false,
      if_true, List.length_cons] at ihx ⊢
    omega

/-- The filter dropping nan entries keeps an all-finite series intact. -/
theorem filter_not_isNaN_map_fin (l : List ℝ) :
    (l.map FP.fin).filter (fun z => !z.isNaN) = l.map FP.fin := by
  induction l with
  | nil => rfl
  | cons a as ih => simp [List.filter, FP.isNaN, ih]

/-- The count of non-nan entries of the series with one interior nan. -/
theorem countNotNan_spliceNaN (x y : ℝ) (xs ys : List ℝ) :
    countNotNan (spliceNaN x y xs ys) = (xs.length : ℤ) + ys.length + 2 := by
  rw [spliceNaN, countNotNan, List.filter_append,
    show (FP.nan :: (y :: ys).map FP.fin).filter (fun z => !z.isNaN)
      = ((y :: ys).map FP.fin).filter (fun z => !z.isNaN) from rfl,
    filter_not_isNaN_map_fin, filter_not_isNaN_map_fin]
  simp [List.length_append]
  ring

/-! The transpose and its interaction with elementwise maps. -/

theorem transposeM_map_map {α β : Type} (f : α → β) (M : List (List α)) :
    transposeM (M.map (List.map f)) = (transposeM M).map (List.map f) := by
  induction M with
  | nil => rfl
  | cons row rest ih =>
    cases rest with
    | nil =>
      simp [transposeM, List.map_map, Function.comp]
    | cons row2 rest2 =>
      simp only [List.map_cons] at ih ⊢
      rw [transposeM, transposeM, ih, List.map_zipWith, List.zipWith_map_left,
        List.zipWith_map_right]
      rfl

/-! Claim theorems. -/

/-- Claim C10: in `compute_fpp` the denominator of the point-to-point sample
variance is always the count of non-nan flux entries minus one (computed on
the original orientation), not the number of difference terms actually
aggregated by the NaN-aware sum; on a series with one interior nan the
divisor exceeds the number of summed differences by exactly one. -/
theorem compute_fpp_divisor_exceeds_valid_diffs (x y : ℝ) (xs ys : List ℝ)
    (flux_err : List FP) :
    countNotNan (spliceNaN x y xs ys) - 1
        = (numValidDiffs (spliceNaN x y xs ys) : ℤ) + 1 ∧
      sSquareFpp (spliceNaN x y xs ys)
        = divFP (nansumList ((diffsRow (spliceNaN x y xs ys)).map sqFP))
            (intFP (countNotNan (spliceNaN x y xs ys) - 1)) ∧
      (compute_fpp (spliceNaN x y xs ys) flux_err).1
        = divFP (sqrtFP (absFP (subFP (sSquareFpp (spliceNaN x y xs ys))
            (sigSquare (spliceNaN x y xs ys) flux_err))))
            (nanmeanList (spliceNaN x y xs ys)) := by
  refine ⟨?_, rfl, rfl⟩
  rw [countNotNan_spliceNaN, numValidDiffs_spliceNaN]
  push_cast
  ring

/-- Claim C4 (amended): `compute_fpp` is invariant under transposing a 2-D
input and switching the reduction axis between 0 and 1; the corresponding
property fails for `compute_fvar` (see the counterexample), whose
`flux - flux_mean` broadcast subtracts the mean along the trailing axis
regardless of the chosen axis. -/
theorem compute_fpp2_axis_transpose_invariant (A E : List (List FP)) :
    compute_fpp2 0 A E = compute_fpp2 1 (transposeM A) (transposeM E) := by
  simp only [compute_fpp2, nanmean2, counts2, swapT, nansum2, if_pos, if_neg,
    one_ne_zero, reduceIte]
  rw [transposeM_map_map]

/-- Claim C4 counterexample: on the 2-by-3 flux array `[[1,2,3],[4,5,6]]`
with zero errors, `compute_fvar` along axis 0 succeeds, while along axis 1
on the transposed input the `flux - flux_mean` broadcast fails (numpy raises
a `ValueError`), so the two results are not the same pair. -/
theorem compute_fvar2_axis_transpose_counterexample :
    compute_fvar2 0 [[FP.fin 1, FP.fin 2, FP.fin 3], [FP.fin 4, FP.fin 5, FP.fin 6]]
        [[FP.fin 0, FP.fin 0, FP.fin 0], [FP.fin 0, FP.fin 0, FP.fin 0]]
      ≠ compute_fvar2 1
        (transposeM [[FP.fin 1, FP.fin 2, FP.fin 3], [FP.fin 4, FP.fin 5, FP.fin 6]])
        (transposeM [[FP.fin 0, FP.fin 0, FP.fin 0], [FP.fin 0, FP.fin 0, FP.fin 0]]) := by
  intro h
  have h1 : ∃ p, compute_fvar2 0
      [[FP.fin 1, FP.fin 2, FP.fin 3], [FP.fin 4, FP.fin 5, FP.fin 6]]
      [[FP.fin 0, FP.fin 0, FP.fin 0], [FP.fin 0, FP.fin 0, FP.fin 0]] = Except.ok p :=
    ⟨_, rfl⟩
  have h2 : compute_fvar2 1
      (transposeM [[FP.fin 1, FP.fin 2, FP.fin 3], [FP.fin 4, FP.fin 5, FP.fin 6]])
      (transposeM [[FP.fin 0, FP.fin 0, FP.fin 0], [FP.fin 0, FP.fin 0, FP.fin 0]])
      = Except.error "operands could not be broadcast together" := rfl
  obtain ⟨p, hp⟩ := h1
  rw [hp, h2] at h
  exact Except.noConfusion h

/-- Skipping the nan entries of a series before squaring does not change the
NaN-aware sum of squares: nan entries are excluded, not propagated. -/
theorem nansumList_map_sqFP_filter (l : List FP) :
    nansumList (l.map sqFP) = nansumList ((l.filter fun e => !e.isNaN).map sqFP) := by
  induction l with
  | nil => rfl
  | cons e es ih =>
    cases e with
    | nan => simpa [List.filter, FP.isNaN, List.map_cons, sqFP, nansumList] using ih
    | inf => simp [List.filter, FP.isNaN, List.map_cons, sqFP, nansumList, ih]
    | ninf => simp [List.filter, FP.isNaN, List.map_cons, sqFP, nansumList, ih]
    | fin a => simp [List.filter, FP.isNaN, List.map_cons, sqFP, nansumList, ih]

/-- Claim C2 (amended): the mean-square measurement error of `compute_fvar`
and `compute_fpp` is computed with `np.nansum`, so nan entries of `flux_err`
ARE excluded from the sum (they contribute nothing), instead of propagating
as the claim states. -/
theorem sig_square_nan_aware (flux flux_err : List FP) :
    sigSquare flux flux_err = sigSquare flux (flux_err.filter fun e => !e.isNaN) := by
  rw [sigSquare, sigSquare, nansumList_map_sqFP_filter]

/-- Claim C2 counterexample: for `flux = [0, 2]` and `flux_err = [nan, 0]`,
the code computes the mean-square error as the finite value `0` (the claimed
plain sum would give nan), and the returned fvar is not nan. -/
theorem sig_square_plain_sum_counterexample :
    sigSquare [FP.fin 0, FP.fin 2] [FP.nan, FP.fin 0] = FP.fin 0 ∧
      sigSquarePlain [FP.fin 0, FP.fin 2] [FP.nan, FP.fin 0] = FP.nan ∧
      (compute_fvar [FP.fin 0, FP.fin 2] [FP.nan, FP.fin 0]).1 ≠ FP.nan := by
  refine ⟨?_, ?_, ?_⟩
  · norm_num [sigSquare, nansumList, countNotNan, List.filter, FP.isNaN, intFP,
      sqFP, addFP, divFP]
  · norm_num [sigSquarePlain, sumList, countNotNan, List.filter, FP.isNaN, intFP,
      sqFP, addFP, divFP, addFP_nan_right]
  · have hmean : nanmeanList [FP.fin 0, FP.fin 2] = FP.fin 1 := by
      norm_num [nanmeanList, nansumList, countNotNan, List.filter, FP.isNaN, intFP,
        addFP, divFP]
    have hs : sSquareFvar [FP.fin 0, FP.fin 2] = FP.fin 2 := by
      rw [sSquareFvar, hmean]
      norm_num [nansumList, countNotNan, List.filter, FP.isNaN, intFP, addFP,
        subFP, sqFP, divFP]
    have hsig : sigSquare [FP.fin 0, FP.fin 2] [FP.nan, FP.fin 0] = FP.fin 0 := by
      norm_num [sigSquare, nansumList, countNotNan, List.filter, FP.isNaN, intFP,
        sqFP, addFP, divFP]
    show fvarTerm [FP.fin 0, FP.fin 2] [FP.nan, FP.fin 0] ≠ FP.nan
    rw [fvarTerm, hmean, hs, hsig, subFP_fin_fin, absFP_fin]
    norm_num [sqrtFP, divFP]
    exact fun hc => FP.noConfusion hc

/-- Claim C9: `compute_chisq` performs no missing-value handling: a nan entry
propagates through the plain mean and through every term of the delegated
chi-square statistic, and through the survival function (which maps nan to
nan), so both returned values are nan. -/
theorem compute_chisq_nan_propagates (sf : ℕ → FP → FP) (flux : List FP)
    (hnan : FP.nan ∈ flux) (hsf : ∀ d : ℕ, sf d FP.nan = FP.nan) :
    compute_chisq sf flux = (FP.nan, FP.nan) := by
  have hmean : meanList flux = FP.nan := by
    rw [meanList, sumList_of_mem_nan flux hnan, divFP_nan_left]
  have hstat : chisquareStat flux (meanList flux) = FP.nan := by
    rw [chisquareStat, hmean]
    cases flux with
    | nil => cases hnan
    | cons a rest =>
      simp only [List.map_cons, sumList, subFP_nan_right, divFP_nan_right, addFP_nan_left]
  rw [compute_chisq, hstat, hsf]

/-- Concrete instance of claim C9 at `flux = [1, nan]` with the survival
function modelled as a nan-fixing map. -/
theorem compute_chisq_nan_propagates_witness :
    FP.nan ∈ [FP.fin 1, FP.nan] ∧
      compute_chisq (fun _ z => z) [FP.fin 1, FP.nan] = (FP.nan, FP.nan) :=
  ⟨List.mem_cons_of_mem _ (List.mem_cons_self FP.nan []),
    compute_chisq_nan_propagates (fun _ z => z) [FP.fin 1, FP.nan]
      (List.mem_cons_of_mem _ (List.mem_cons_self FP.nan [])) (fun _ => rfl)⟩

/-- Claim C8: `compute_chisq` returns the chi-square statistic of the
observations against the plain mean broadcast as expected value, paired with
its p-value at `len - 1` degrees of freedom, and on the constant series
`[5, 5, 5, 5]` it yields a zero statistic and (since the chi-square survival
function is one at zero) a p-value of one. -/
theorem compute_chisq_spec (sf : ℕ → FP → FP) (flux : List FP) :
    compute_chisq sf flux
        = (chisquareStat flux (meanList flux),
            sf (flux.length - 1) (chisquareStat flux (meanList flux))) ∧
      (sf 3 (FP.fin 0) = FP.fin 1 →
        compute_chisq sf [FP.fin 5, FP.fin 5, FP.fin 5, FP.fin 5]
          = (FP.fin 0, FP.fin 1)) := by
  refine ⟨rfl, fun hsf => ?_⟩
  have hmean : meanList [FP.fin 5, FP.fin 5, FP.fin 5, FP.fin 5] = FP.fin 5 := by
    norm_num [meanList, sumList, addFP, intFP, divFP]
  have hstat : chisquareStat [FP.fin 5, FP.fin 5, FP.fin 5, FP.fin 5]
      (meanList [FP.fin 5, FP.fin 5, FP.fin 5, FP.fin 5]) = FP.fin 0 := by
    rw [hmean]
    norm_num [chisquareStat, sumList, subFP, sqFP, divFP, addFP]
  rw [compute_chisq, hstat]
  show (FP.fin 0, sf 3 (FP.fin 0)) = (FP.fin 0, FP.fin 1)
  rw [hsf]

/-- Concrete instance of claim C8: with any survival function that is one at
zero, the constant series gives statistic zero and p-value one. -/
theorem compute_chisq_spec_witness :
    compute_chisq (fun _ _ => FP.fin 1) [FP.fin 5, FP.fin 5, FP.fin 5, FP.fin 5]
      = (FP.fin 0, FP.fin 1) :=
  (compute_chisq_spec (fun _ _ => FP.fin 1) []).2 rfl

/-- NaN-aware sum of a constant series. -/
theorem nansumList_const (c : ℝ) (l : List FP) (h : ∀ x ∈ l, x = FP.fin c) :
    nansumList l = FP.fin (l.length * c) := by
  induction l with
  | nil => norm_num [nansumList]
  | cons x xs ih =>
    rw [h x (List.mem_cons_self x xs),
      nansumList_cons_not_nan _ _ (by intro hc; cases hc),
      ih fun y hy => h y (List.mem_cons_of_mem x hy), addFP_fin_fin, List.length_cons]
    congr 1
    push_cast
    ring

/-- Count of non-nan entries of an all-finite series. -/
theorem countNotNan_all_fin (l : List FP) (h : ∀ x ∈ l, ∃ r : ℝ, x = FP.fin r) :
    countNotNan l = (l.length : ℤ) := by
  induction l with
  | nil => rfl
  | cons x xs ih =>
    obtain ⟨r, hr⟩ := h x (List.mem_cons_self x xs)
    subst hr
    rw [countNotNan_cons_fin, ih fun y hy => h y (List.mem_cons_of_mem _ hy),
      List.length_cons]
    push_cast
    ring

/-- Claim C6: when the mean-square measurement error exceeds the sample
variance and the mean flux is positive and finite, `compute_fvar` still
returns a nonnegative finite real fvar (no nan, no exception), thanks to the
absolute value taken before the square root. -/
theorem compute_fvar_abs_guard_nonneg (flux flux_err : List FP) (s g m : ℝ)
    (hs : sSquareFvar flux = FP.fin s) (hg : sigSquare flux flux_err = FP.fin g)
    (_hsg : s < g) (hm : nanmeanList flux = FP.fin m) (hmpos : 0 < m) :
    ∃ r : ℝ, 0 ≤ r ∧ (compute_fvar flux flux_err).1 = FP.fin r := by
  refine ⟨Real.sqrt |s - g| / m, div_nonneg (Real.sqrt_nonneg _) hmpos.le, ?_⟩
  show fvarTerm flux flux_err = _
  rw [fvarTerm, hs, hg, hm, subFP_fin_fin, absFP_fin, sqrtFP_fin _ (abs_nonneg _),
    divFP_fin_fin _ _ (ne_of_gt hmpos)]

/-- Concrete instance of claim C6 on the spec's example
`flux = [10, 10.01, 9.99]`, `flux_err = [5, 5, 5]`: the measurement noise
dominates the scatter and fvar is a nonnegative finite real. -/
theorem compute_fvar_abs_guard_nonneg_witness :
    sSquareFvar [FP.fin 10, FP.fin 10.01, FP.fin 9.99] = FP.fin 0.0001 ∧
      sigSquare [FP.fin 10, FP.fin 10.01, FP.fin 9.99]
        [FP.fin 5, FP.fin 5, FP.fin 5] = FP.fin 25 ∧
      (0.0001 : ℝ) < 25 ∧
      nanmeanList [FP.fin 10, FP.fin 10.01, FP.fin 9.99] = FP.fin 10 ∧
      ∃ r : ℝ, 0 ≤ r ∧ (compute_fvar [FP.fin 10, FP.fin 10.01, FP.fin 9.99]
        [FP.fin 5, FP.fin 5, FP.fin 5]).1 = FP.fin r := by
  have hm : nanmeanList [FP.fin 10, FP.fin 10.01, FP.fin 9.99] = FP.fin 10 := by
    norm_num [nanmeanList, nansumList, countNotNan, List.filter, FP.isNaN, intFP,
      addFP, divFP]
  have hs : sSquareFvar [FP.fin 10, FP.fin 10.01, FP.fin 9.99] = FP.fin 0.0001 := by
    rw [sSquareFvar, hm]
    norm_num [nansumList, countNotNan, List.filter, FP.isNaN, intFP, addFP,
      subFP, sqFP, divFP]
  have hg : sigSquare [FP.fin 10, FP.fin 10.01, FP.fin 9.99]
      [FP.fin 5, FP.fin 5, FP.fin 5] = FP.fin 25 := by
    norm_num [sigSquare, nansumList, countNotNan, List.filter, FP.isNaN, intFP,
      sqFP, addFP, divFP]
  exact ⟨hs, hg, by norm_num, hm,
    compute_fvar_abs_guard_nonneg _ _ _ _ _ hs hg (by norm_num) hm (by norm_num)⟩

/-- Claim C7 (amended): for a flux series constant at a finite nonzero value
with at least two points and all errors zero, `compute_fvar` returns an fvar
of exactly zero.  (For the constant-zero series the mean is zero and the
division `0 / 0` yields nan instead; see the counterexample.) -/
theorem compute_fvar_constant_zero (c : ℝ) (flux flux_err : List FP)
    (hc : c ≠ 0) (hlen : 2 ≤ flux.length)
    (hflux : ∀ x ∈ flux, x = FP.fin c) (herr : ∀ e ∈ flux_err, e = FP.fin 0) :
    (compute_fvar flux flux_err).1 = FP.fin 0 := by
  have hlen0 : ((flux.length : ℤ) : ℝ) ≠ 0 := by
    have : 0 < flux.length := by omega
    push_cast
    positivity
  have hcount : countNotNan flux = (flux.length : ℤ) :=
    countNotNan_all_fin flux fun x hx => ⟨c, hflux x hx⟩
  have hmean : nanmeanList flux = FP.fin c := by
    rw [nanmeanList, nansumList_const c flux hflux, hcount, intFP,
      divFP_fin_fin _ _ hlen0]
    congr 1
    push_cast
    field_simp
  have hdev : ∀ y ∈ flux.map fun x => sqFP (subFP x (nanmeanList flux)),
      y = FP.nan ∨ y = FP.fin 0 := by
    intro y hy
    obtain ⟨x, hx, rfl⟩ := List.mem_map.mp hy
    rw [hflux x hx, hmean, subFP_fin_fin, sqFP_fin]
    right
    norm_num
  have hss : sSquareFvar flux = FP.fin 0 := by
    rw [sSquareFvar, nansumList_nan_or_zero _ hdev, hcount, intFP,
      divFP_fin_fin _ _ (by
        have h2 : (2 : ℝ) ≤ (flux.length : ℝ) := by exact_mod_cast hlen
        push_cast
        intro hcon
        linarith)]
    norm_num
  have herr2 : ∀ y ∈ flux_err.map sqFP, y = FP.nan ∨ y = FP.fin 0 := by
    intro y hy
    obtain ⟨e, he, rfl⟩ := List.mem_map.mp hy
    rw [herr e he, sqFP_fin]
    right
    norm_num
  have hsig : sigSquare flux flux_err = FP.fin 0 := by
    rw [sigSquare, nansumList_nan_or_zero _ herr2, hcount, intFP,
      divFP_fin_fin _ _ hlen0]
    norm_num
  show fvarTerm flux flux_err = FP.fin 0
  rw [fvarTerm, hss, hsig, hmean, subFP_fin_fin, absFP_fin, sub_zero, abs_zero,
    sqrtFP_fin _ le_rfl, Real.sqrt_zero, divFP_fin_fin _ _ hc]
  norm_num

/-- Concrete instance of claim C7 (amended) on the constant series `[3, 3]`
with zero errors. -/
theorem compute_fvar_constant_zero_witness :
    (3 : ℝ) ≠ 0 ∧ 2 ≤ ([FP.fin 3, FP.fin 3] : List FP).length ∧
      (compute_fvar [FP.fin 3, FP.fin 3] [FP.fin 0, FP.fin 0]).1 = FP.fin 0 := by
  refine ⟨by norm_num, by norm_num, ?_⟩
  refine compute_fvar_constant_zero 3 _ _ (by norm_num) (by norm_num) ?_ ?_
  · intro x hx
    rcases List.mem_cons.mp hx with h | h
    · exact h
    · rcases List.mem_cons.mp h with h2 | h2
      · exact h2
      · cases h2
  · intro e he
    rcases List.mem_cons.mp he with h | h
    · exact h
    · rcases List.mem_cons.mp h with h2 | h2
      · exact h2
      · cases h2

/-- Claim C7 counterexample: the series constant at zero satisfies every
condition of the claim, but `compute_fvar` returns nan (the division
`sqrt(0) / 0` is `0 / 0`), not zero nor any finite value. -/
theorem compute_fvar_constant_zero_counterexample :
    (compute_fvar [FP.fin 0, FP.fin 0] [FP.fin 0, FP.fin 0]).1 = FP.nan ∧
      ∀ r : ℝ, (compute_fvar [FP.fin 0, FP.fin 0] [FP.fin 0, FP.fin 0]).1 ≠ FP.fin r := by
  have h : (compute_fvar [FP.fin 0, FP.fin 0] [FP.fin 0, FP.fin 0]).1 = FP.nan := by
    show fvarTerm [FP.fin 0, FP.fin 0] [FP.fin 0, FP.fin 0] = FP.nan
    have hm : nanmeanList [FP.fin 0, FP.fin 0] = FP.fin 0 := by
      norm_num [nanmeanList, nansumList, countNotNan, List.filter, FP.isNaN,
        intFP, addFP, divFP]
    have hss : sSquareFvar [FP.fin 0, FP.fin 0] = FP.fin 0 := by
      rw [sSquareFvar, hm]
      norm_num [nansumList, countNotNan, List.filter, FP.isNaN, intFP, addFP,
        subFP, sqFP, divFP]
    have hsig : sigSquare [FP.fin 0, FP.fin 0] [FP.fin 0, FP.fin 0] = FP.fin 0 := by
      norm_num [sigSquare, nansumList, countNotNan, List.filter, FP.isNaN, intFP,
        sqFP, addFP, divFP]
    rw [fvarTerm, hss, hsig, hm, subFP_fin_fin, absFP_fin, sub_zero, abs_zero,
      sqrtFP_fin _ le_rfl, Real.sqrt_zero, divFP_zero_zero]
  exact ⟨h, fun r => by rw [h]; exact fun hc => FP.noConfusion hc⟩

/-- The fvar expression divided by a zero mean is nan or positive infinity. -/
theorem fvar_shape_div_zero (a b : FP) :
    isNanOrInf (divFP (sqrtFP (absFP (subFP a b))) (FP.fin 0)) := by
  rcases divFP_nonnegOut_zero (nonnegOut_sqrtFP (nonnegOut_absFP (subFP a b))) with h | h <;>
    rw [h]
  · exact Or.inl rfl
  · exact Or.inr (Or.inl rfl)

/-- Claim C5: `compute_fvar` raises nothing on degenerate inputs (it is a
total function); when the flux mean is zero or the number of valid points is
0 or 1 the returned fvar is nan or an infinity, and when the computed fvar is
exactly zero the returned uncertainty is nan or an infinity, per
floating-point semantics. -/
theorem compute_fvar_degenerate_no_raise (flux flux_err : List FP) :
    ((nanmeanList flux = FP.fin 0 ∨ countNotNan flux = 0 ∨ countNotNan flux = 1) →
        isNanOrInf (compute_fvar flux flux_err).1) ∧
      ((compute_fvar flux flux_err).1 = FP.fin 0 →
        isNanOrInf (compute_fvar flux flux_err).2) := by
  constructor
  · intro h
    show isNanOrInf (fvarTerm flux flux_err)
    rcases h with hm | h0 | h1
    · rw [fvarTerm, hm]
      exact fvar_shape_div_zero (sSquareFvar flux) (sigSquare flux flux_err)
    · have hall : ∀ x ∈ flux, x = FP.nan := all_nan_of_countNotNan_zero flux h0
      have hmean : nanmeanList flux = FP.nan := by
        rw [nanmeanList, nansumList_all_nan flux hall, h0, intFP]
        norm_num [divFP]
      rw [fvarTerm, hmean, divFP_nan_right]
      exact Or.inl rfl
    · rw [countNotNan] at h1
      have hlen : (flux.filter fun y => !y.isNaN).length = 1 := by exact_mod_cast h1
      obtain ⟨x, hx⟩ := List.length_eq_one.mp hlen
      have hsum : nansumList flux = x := by
        rw [nansumList_eq_sumList_filter, hx,
          show sumList [x] = addFP x (FP.fin 0) from rfl, addFP_zero_right]
      have hmean : nanmeanList flux = x := by
        rw [nanmeanList, hsum, countNotNan, hx]
        show divFP x (FP.fin ((1 : ℤ) : ℝ)) = x
        norm_num [divFP_one]
      have hdev : ∀ y ∈ flux.map fun z => sqFP (subFP z (nanmeanList flux)),
          y = FP.nan ∨ y = FP.fin 0 := by
        intro y hy
        obtain ⟨z, hz, rfl⟩ := List.mem_map.mp hy
        by_cases hzn : z.isNaN = true
        · left
          rw [(isNaN_iff z).mp hzn, subFP_nan_left]
          rfl
        · have hzf : z ∈ flux.filter fun y => !y.isNaN :=
            List.mem_filter.mpr ⟨hz, by simpa using hzn⟩
          rw [hx] at hzf
          rw [List.mem_singleton.mp hzf, hmean]
          cases x with
          | nan => exact Or.inl rfl
          | inf => exact Or.inl rfl
          | ninf => exact Or.inl rfl
          | fin a =>
            rw [subFP_fin_fin, sqFP_fin]
            right
            norm_num
      have hss : sSquareFvar flux = FP.nan := by
        rw [sSquareFvar, nansumList_nan_or_zero _ hdev, countNotNan, hx]
        show divFP (FP.fin 0) (FP.fin (((1 : ℤ) - 1 : ℤ) : ℝ)) = FP.nan
        norm_num [divFP]
      rw [fvarTerm, hss, subFP_nan_left]
      show isNanOrInf (divFP (sqrtFP FP.nan) (nanmeanList flux))
      rw [show sqrtFP FP.nan = FP.nan from rfl, divFP_nan_left]
      exact Or.inl rfl
  · intro h
    have h' : fvarTerm flux flux_err = FP.fin 0 := h
    show isNanOrInf (errTerm flux flux_err (fvarTerm flux flux_err))
    rw [errTerm, h', mulFP_fin_fin, show (2 : ℝ) * 0 = 0 by norm_num]
    rcases divFP_nonnegOut_zero (nonnegOut_sqrtFP (nonnegOut_addFP
        (nonnegOut_sqFP (sigxserrA flux flux_err))
        (nonnegOut_sqFP (sigxserrB flux flux_err (FP.fin 0))))) with hh | hh <;> rw [hh]
    · exact Or.inl rfl
    · exact Or.inr (Or.inl rfl)

/-- Concrete instance of claim C5: a single data point along the reduction
axis gives a nan (or infinite) fvar without raising. -/
theorem compute_fvar_degenerate_no_raise_witness :
    countNotNan [FP.fin 5] = 1 ∧ isNanOrInf (compute_fvar [FP.fin 5] [FP.fin 1]).1 :=
  ⟨rfl, (compute_fvar_degenerate_no_raise [FP.fin 5] [FP.fin 1]).1 (Or.inr (Or.inr rfl))⟩

/-- The difference of two nan-or-finite values is nan-or-finite. -/
theorem subFP_finOrNan {x y : FP} (hx : FinOrNan x) (hy : FinOrNan y) :
    FinOrNan (subFP y x) := by
  rcases hx with hx | ⟨r, hx⟩ <;> rcases hy with hy | ⟨t, hy⟩ <;> subst hx <;> subst hy
  · exact Or.inl rfl
  · exact Or.inl (subFP_nan_right _)
  · exact Or.inl rfl
  · exact Or.inr ⟨t - r, subFP_fin_fin t r⟩

/-- The square of a nan-or-finite value is nan-or-finite. -/
theorem sqFP_finOrNan {x : FP} (hx : FinOrNan x) : FinOrNan (sqFP x) := by
  rcases hx with hx | ⟨r, hx⟩ <;> subst hx
  · exact Or.inl rfl
  · exact Or.inr ⟨r ^ 2, sqFP_fin r⟩

/-- First differences of a nan-or-finite series are nan-or-finite. -/
theorem diffsRow_finOrNan (l : List FP) (h : ∀ x ∈ l, FinOrNan x) :
    ∀ d ∈ diffsRow l, FinOrNan d := by
  induction l with
  | nil => intro d hd; cases hd
  | cons a rest ih =>
    cases rest with
    | nil => intro d hd; cases hd
    | cons b rest2 =>
      intro d hd
      rw [diffsRow_cons_cons] at hd
      rcases List.mem_cons.mp hd with hd | hd
      · subst hd
        exact subFP_finOrNan (h a (List.mem_cons_self a _))
          (h b (List.mem_cons_of_mem _ (List.mem_cons_self b _)))
      · exact ih (fun x hx => h x (List.mem_cons_of_mem _ hx)) d hd

/-- Claim C3 (amended): the sum over squared first differences in
`compute_fpp` is `np.nansum`, so the nan difference terms produced by a nan
flux entry are excluded from the sum rather than propagated: for any
nan-or-finite flux with at least two valid points, nan-or-finite errors and
a finite nonzero mean, the returned fpp is not nan. -/
theorem compute_fpp_nan_diffs_excluded (flux flux_err : List FP) (m : ℝ)
    (hf : ∀ x ∈ flux, FinOrNan x) (he : ∀ e ∈ flux_err, FinOrNan e)
    (hn : 2 ≤ countNotNan flux)
    (hm : nanmeanList flux = FP.fin m) (hm0 : m ≠ 0) :
    (compute_fpp flux flux_err).1 ≠ FP.nan := by
  have hcden : (((countNotNan flux - 1 : ℤ)) : ℝ) ≠ 0 := by
    have h1 : (1 : ℤ) ≤ countNotNan flux - 1 := by omega
    have h2 : (1 : ℝ) ≤ ((countNotNan flux - 1 : ℤ) : ℝ) := by exact_mod_cast h1
    linarith
  have hcnum : (((countNotNan flux : ℤ)) : ℝ) ≠ 0 := by
    have h2 : (2 : ℝ) ≤ ((countNotNan flux : ℤ) : ℝ) := by exact_mod_cast hn
    linarith
  have hdi : ∀ d ∈ (diffsRow flux).map sqFP, FinOrNan d := by
    intro d hd
    obtain ⟨d0, hd0, rfl⟩ := List.mem_map.mp hd
    exact sqFP_finOrNan (diffsRow_finOrNan flux hf d0 hd0)
  have hss : sSquareFpp flux
      = FP.fin ((realsOf ((diffsRow flux).map sqFP)).sum / ((countNotNan flux - 1 : ℤ) : ℝ)) := by
    rw [sSquareFpp, nansumList_eq_sum_realsOf _ hdi, intFP, divFP_fin_fin _ _ hcden]
  have hei : ∀ d ∈ flux_err.map sqFP, FinOrNan d := by
    intro d hd
    obtain ⟨d0, hd0, rfl⟩ := List.mem_map.mp hd
    exact sqFP_finOrNan (he d0 hd0)
  have hsig : sigSquare flux flux_err
      = FP.fin ((realsOf (flux_err.map sqFP)).sum / ((countNotNan flux : ℤ) : ℝ)) := by
    rw [sigSquare, nansumList_eq_sum_realsOf _ hei, intFP, divFP_fin_fin _ _ hcnum]
  show fppTerm flux flux_err ≠ FP.nan
  rw [fppTerm, hss, hsig, hm, subFP_fin_fin, absFP_fin, sqrtFP_fin _ (abs_nonneg _),
    divFP_fin_fin _ _ hm0]
  exact fun hc => FP.noConfusion hc

/-- Concrete instance of claim C3 (amended): the flux `[0, nan, 0, 4]`
produces two nan difference terms, yet fpp is not nan. -/
theorem compute_fpp_nan_diffs_excluded_witness :
    FP.nan ∈ [FP.fin 0, FP.nan, FP.fin 0, FP.fin 4] ∧
      (compute_fpp [FP.fin 0, FP.nan, FP.fin 0, FP.fin 4]
        [FP.fin 0, FP.fin 0, FP.fin 0, FP.fin 0]).1 ≠ FP.nan := by
  have hm : nanmeanList [FP.fin 0, FP.nan, FP.fin 0, FP.fin 4] = FP.fin (4 / 3) := by
    norm_num [nanmeanList, nansumList, countNotNan, List.filter, FP.isNaN, intFP,
      addFP, divFP]
  refine ⟨List.mem_cons_of_mem _ (List.mem_cons_self FP.nan _), ?_⟩
  refine compute_fpp_nan_diffs_excluded _ _ (4 / 3) ?_ ?_ ?_ hm (by norm_num)
  · intro x hx
    simp only [List.mem_cons, List.not_mem_nil, or_false] at hx
    rcases hx with rfl | rfl | rfl | rfl
    · exact Or.inr ⟨0, rfl⟩
    · exact Or.inl rfl
    · exact Or.inr ⟨0, rfl⟩
    · exact Or.inr ⟨4, rfl⟩
  · intro e he
    simp only [List.mem_cons, List.not_mem_nil, or_false] at he
    rcases he with rfl | rfl | rfl | rfl <;> exact Or.inr ⟨0, rfl⟩
  · norm_num [countNotNan, List.filter, FP.isNaN]

/-- Claim C3 counterexample: on `flux = [0, nan, 0, 4]` with zero errors,
the point-to-point sample variance evaluates to the finite value `8` (the
two nan difference terms are dropped by `np.nansum`, only `(4 - 0)^2`
divided by `n_points - 1 = 2` remains) and the returned fpp is finite, not
nan as the claim asserts. -/
theorem compute_fpp_nan_sum_counterexample :
    sSquareFpp [FP.fin 0, FP.nan, FP.fin 0, FP.fin 4] = FP.fin 8 ∧
      (compute_fpp [FP.fin 0, FP.nan, FP.fin 0, FP.fin 4]
        [FP.fin 0, FP.fin 0, FP.fin 0, FP.fin 0]).1 ≠ FP.nan := by
  have hss : sSquareFpp [FP.fin 0, FP.nan, FP.fin 0, FP.fin 4] = FP.fin 8 := by
    norm_num [sSquareFpp, diffsRow_cons_cons, diffsRow_single, subFP_nan_left,
      subFP_nan_right, subFP_fin_fin, sqFP, nansumList, FP.isNaN, addFP,
      countNotNan, List.filter, intFP, divFP]
  have hm : nanmeanList [FP.fin 0, FP.nan, FP.fin 0, FP.fin 4] = FP.fin (4 / 3) := by
    norm_num [nanmeanList, nansumList, countNotNan, List.filter, FP.isNaN, intFP,
      addFP, divFP]
  have hsig : sigSquare [FP.fin 0, FP.nan, FP.fin 0, FP.fin 4]
      [FP.fin 0, FP.fin 0, FP.fin 0, FP.fin 0] = FP.fin 0 := by
    norm_num [sigSquare, nansumList, countNotNan, List.filter, FP.isNaN, intFP,
      sqFP, addFP, divFP]
  refine ⟨hss, ?_⟩
  show fppTerm [FP.fin 0, FP.nan, FP.fin 0, FP.fin 4]
    [FP.fin 0, FP.fin 0, FP.fin 0, FP.fin 0] ≠ FP.nan
  rw [fppTerm, hss, hsig, hm, subFP_fin_fin, absFP_fin,
    sqrtFP_fin _ (abs_nonneg _), divFP_fin_fin _ _ (by norm_num)]
  exact fun hc => FP.noConfusion hc

theorem intFP_natCast (n : ℕ) : intFP (n : ℤ) = FP.fin (n : ℝ) := by
  rw [intFP]
  norm_num

theorem intFP_natCast_sub_one (n : ℕ) : intFP ((n : ℤ) - 1) = FP.fin ((n : ℝ) - 1) := by
  rw [intFP]
  push_cast
  rfl

/-- The spec-side mean-square measurement error is nonnegative. -/
theorem sigSquareR_nonneg (flux flux_err : List FP) : 0 ≤ sigSquareR flux flux_err := by
  rw [sigSquareR]
  apply div_nonneg
  · apply List.sum_nonneg
    intro z hz
    obtain ⟨e, _, rfl⟩ := List.mem_map.mp hz
    positivity
  · positivity

/-- Claim C1 (amended, 1-D series along the default axis 0, with the
NaN-aware reading of the measurement-error sum): under the side conditions
that make the spec formulas well defined (nan-or-finite entries, at least
two valid points, nonzero mean, sample variance different from the
mean-square error), `compute_fvar` returns exactly the pair of real-formula
values `(fvar, fvar_err)` of the spec. -/
theorem compute_fvar_matches_spec_formulas (flux flux_err : List FP)
    (hf : ∀ x ∈ flux, FinOrNan x) (he : ∀ e ∈ flux_err, FinOrNan e)
    (hn : 2 ≤ nPtsR flux) (hm : fluxMeanR flux ≠ 0)
    (hd : sSquareR flux ≠ sigSquareR flux flux_err) :
    compute_fvar flux flux_err
      = (FP.fin (fvarR flux flux_err), FP.fin (fvarErrR flux flux_err)) := by
  have hn2 : (2 : ℝ) ≤ (nPtsR flux : ℝ) := by exact_mod_cast hn
  have hn0 : ((nPtsR flux : ℝ)) ≠ 0 := by linarith
  have hd1 : ((nPtsR flux : ℝ)) - 1 ≠ 0 := by linarith
  have hmean : nanmeanList flux = FP.fin (fluxMeanR flux) :=
    nanmeanList_eq flux hf (by omega)
  have hcnt : countNotNan flux = ((nPtsR flux : ℕ) : ℤ) := countNotNan_eq_nPtsR flux hf
  have hmap := realsOf_map flux (fun x => sqFP (subFP x (FP.fin (fluxMeanR flux))))
    (fun r => (r - fluxMeanR flux) ^ 2)
    (by show sqFP (subFP FP.nan (FP.fin (fluxMeanR flux))) = FP.nan
        rw [subFP_nan_left]
        rfl)
    (by intro r
        show sqFP (subFP (FP.fin r) (FP.fin (fluxMeanR flux))) = _
        rw [subFP_fin_fin, sqFP_fin])
    hf
  have hsfv : sSquareFvar flux = FP.fin (sSquareR flux) := by
    rw [sSquareFvar, hmean, nansumList_eq_sum_realsOf _ hmap.2, hmap.1, hcnt,
      intFP_natCast_sub_one, divFP_fin_fin _ _ hd1, sSquareR]
  have hemap := realsOf_map flux_err sqFP (fun e => e ^ 2) rfl sqFP_fin he
  have hsig : sigSquare flux flux_err = FP.fin (sigSquareR flux flux_err) := by
    rw [sigSquare, nansumList_eq_sum_realsOf _ hemap.2, hemap.1, hcnt, intFP_natCast,
      divFP_fin_fin _ _ hn0, sigSquareR]
  have habs : 0 < |sSquareR flux - sigSquareR flux flux_err| :=
    abs_pos.mpr (sub_ne_zero.mpr hd)
  have hfvar : fvarTerm flux flux_err = FP.fin (fvarR flux flux_err) := by
    rw [fvarTerm, hsfv, hsig, hmean, subFP_fin_fin, absFP_fin,
      sqrtFP_fin _ (abs_nonneg _), divFP_fin_fin _ _ hm, fvarR]
  have hfvar0 : fvarR flux flux_err ≠ 0 := by
    rw [fvarR]
    exact div_ne_zero (ne_of_gt (Real.sqrt_pos.mpr habs)) hm
  have hA : sigxserrA flux flux_err = FP.fin (aR flux flux_err) := by
    rw [sigxserrA, hsig, hmean, hcnt, intFP_natCast,
      divFP_fin_fin _ _ hn0, sqrtFP_fin _ (by positivity), mulFP_fin_fin, sqFP_fin,
      divFP_fin_fin _ _ (pow_ne_zero 2 hm), aR]
  have hB : sigxserrB flux flux_err (FP.fin (fvarR flux flux_err))
      = FP.fin (bR flux flux_err) := by
    rw [sigxserrB, hsig, hmean, hcnt, intFP_natCast, divFP_fin_fin _ _ hn0,
      sqrtFP_fin _ (div_nonneg (sigSquareR_nonneg flux flux_err) (by positivity)),
      mulFP_fin_fin, divFP_fin_fin _ _ hm, mulFP_fin_fin, bR]
  have h2f : 2 * fvarR flux flux_err ≠ 0 := mul_ne_zero two_ne_zero hfvar0
  have hE : errTerm flux flux_err (FP.fin (fvarR flux flux_err))
      = FP.fin (fvarErrR flux flux_err) := by
    rw [errTerm, hA, hB, sqFP_fin, sqFP_fin, addFP_fin_fin,
      sqrtFP_fin _ (by positivity), mulFP_fin_fin, divFP_fin_fin _ _ h2f, fvarErrR]
  show (fvarTerm flux flux_err, errTerm flux flux_err (fvarTerm flux flux_err)) = _
  rw [hfvar, hE]

/-- Concrete instance of claim C1 (amended) on `flux = [0, 2]` with zero
errors: all side conditions hold and `compute_fvar` returns the spec pair. -/
theorem compute_fvar_matches_spec_formulas_witness :
    2 ≤ nPtsR [FP.fin 0, FP.fin 2] ∧ fluxMeanR [FP.fin 0, FP.fin 2] ≠ 0 ∧
      sSquareR [FP.fin 0, FP.fin 2] ≠ sigSquareR [FP.fin 0, FP.fin 2] [FP.fin 0, FP.fin 0] ∧
      compute_fvar [FP.fin 0, FP.fin 2] [FP.fin 0, FP.fin 0]
        = (FP.fin (fvarR [FP.fin 0, FP.fin 2] [FP.fin 0, FP.fin 0]),
            FP.fin (fvarErrR [FP.fin 0, FP.fin 2] [FP.fin 0, FP.fin 0])) := by
  have hmv : fluxMeanR [FP.fin 0, FP.fin 2] = 1 := by
    norm_num [fluxMeanR, nPtsR, realsOf_cons_fin, realsOf_nil]
  have hsv : sSquareR [FP.fin 0, FP.fin 2] = 2 := by
    rw [sSquareR, hmv]
    norm_num [nPtsR, realsOf_cons_fin, realsOf_nil]
  have hgv : sigSquareR [FP.fin 0, FP.fin 2] [FP.fin 0, FP.fin 0] = 0 := by
    norm_num [sigSquareR, nPtsR, realsOf_cons_fin, realsOf_nil]
  have hf : ∀ x ∈ [FP.fin 0, FP.fin 2], FinOrNan x := by
    intro x hx
    simp only [List.mem_cons, List.not_mem_nil, or_false] at hx
    rcases hx with rfl | rfl
    · exact Or.inr ⟨0, rfl⟩
    · exact Or.inr ⟨2, rfl⟩
  have he : ∀ e ∈ [FP.fin 0, FP.fin 0], FinOrNan e := by
    intro e he2
    simp only [List.mem_cons, List.not_mem_nil, or_false] at he2
    rcases he2 with rfl | rfl <;> exact Or.inr ⟨0, rfl⟩
  refine ⟨by norm_num [nPtsR, realsOf_cons_fin, realsOf_nil], ?_, ?_, ?_⟩
  · rw [hmv]; norm_num
  · rw [hsv, hgv]; norm_num
  · exact compute_fvar_matches_spec_formulas _ _ hf he
      (by norm_num [nPtsR, realsOf_cons_fin, realsOf_nil])
      (by rw [hmv]; norm_num) (by rw [hsv, hgv]; norm_num)

/-- Claim C1 counterexample: with `flux = [0, 2]` and `flux_err = [nan, 0]`,
the claim's plain-sum reading of the mean-square error makes the claimed
fvar nan, while the code (which uses `np.nansum` for `flux_err**2`) returns
the finite value `sqrt 2`. -/
theorem compute_fvar_plain_sigma_counterexample :
    (compute_fvar [FP.fin 0, FP.fin 2] [FP.nan, FP.fin 0]).1 = FP.fin (Real.sqrt 2) ∧
      fvarClaim [FP.fin 0, FP.fin 2] [FP.nan, FP.fin 0] = FP.nan ∧
      (compute_fvar [FP.fin 0, FP.fin 2] [FP.nan, FP.fin 0]).1
        ≠ fvarClaim [FP.fin 0, FP.fin 2] [FP.nan, FP.fin 0] := by
  have hmean : nanmeanList [FP.fin 0, FP.fin 2] = FP.fin 1 := by
    norm_num [nanmeanList, nansumList, countNotNan, List.filter, FP.isNaN, intFP,
      addFP, divFP]
  have hs : sSquareFvar [FP.fin 0, FP.fin 2] = FP.fin 2 := by
    rw [sSquareFvar, hmean]
    norm_num [nansumList, countNotNan, List.filter, FP.isNaN, intFP, addFP,
      subFP, sqFP, divFP]
  have hsig : sigSquare [FP.fin 0, FP.fin 2] [FP.nan, FP.fin 0] = FP.fin 0 := by
    norm_num [sigSquare, nansumList, countNotNan, List.filter, FP.isNaN, intFP,
      sqFP, addFP, divFP]
  have hcode : (compute_fvar [FP.fin 0, FP.fin 2] [FP.nan, FP.fin 0]).1
      = FP.fin (Real.sqrt 2) := by
    show fvarTerm [FP.fin 0, FP.fin 2] [FP.nan, FP.fin 0] = FP.fin (Real.sqrt 2)
    rw [fvarTerm, hs, hsig, hmean, subFP_fin_fin, absFP_fin, sub_zero,
      sqrtFP_fin _ (abs_nonneg _), divFP_fin_fin _ _ one_ne_zero]
    norm_num
  have hclaim : fvarClaim [FP.fin 0, FP.fin 2] [FP.nan, FP.fin 0] = FP.nan := by
    have hplain : sigSquarePlain [FP.fin 0, FP.fin 2] [FP.nan, FP.fin 0] = FP.nan := by
      rw [sigSquarePlain,
        show sumList ([FP.nan, FP.fin 0].map sqFP)
          = addFP FP.nan (sumList [FP.fin 0]) from rfl,
        addFP_nan_left, divFP_nan_left]
    rw [fvarClaim, hplain, subFP_nan_right,
      show absFP FP.nan = FP.nan from rfl,
      show sqrtFP FP.nan = FP.nan from rfl, divFP_nan_left]
  refine ⟨hcode, hclaim, ?_⟩
  rw [hcode, hclaim]
  exact fun hc => FP.noConfusion hc

end Variability
